import Mathlib

/-!
Verification development for the ExpenseTracker service (`src/app.py`).

The development shallowly embeds the worksheet-backed upsert algorithm
(`add_or_update_expense`), the month-table lifecycle helpers
(`ensure_header`, `get_or_create_worksheet`), the two aggregation
endpoints (`get_summary`, `get_daily_summary`) and the `add_expense`
request handler.  A worksheet is a list of rows; a cell is either a
string or a number (gspread stores the float amounts written by the
program as numbers, and `get_all_values` round-trips them numerically).
Python floats are modelled as rationals, `datetime` dates as
year/month/day triples, and a raised exception as an `Option` failure.
-/

namespace ExpenseTracker

/-! ## Python string stripping (`str.strip`, used by `clean_str`) -/

/-- Whitespace characters removed by Python `str.strip()` (ASCII range). -/
def pyWsp (c : Char) : Bool :=
  c = ' ' || c = '\t' || c = '\n' || c = '\r' || c = '\x0b' || c = '\x0c'

/-- Drop the maximal run of trailing whitespace characters. -/
def dropTrailingWs : List Char → List Char
  | [] => []
  | c :: cs =>
    let r := dropTrailingWs cs
    if r.isEmpty && pyWsp c then [] else c :: r

/-- Characters remaining after stripping leading and trailing whitespace. -/
def stripChars (l : List Char) : List Char :=
  dropTrailingWs (l.dropWhile pyWsp)

/-- Python `s.strip()`. -/
def pyStrip (s : String) : String :=
  String.mk (stripChars s.data)

/-- Source `clean_str(s)`: `(s or "").strip()` where `s` is a string or
`None` (JSON `null` / missing key). -/
def clean_str (s : Option String) : String :=
  pyStrip (s.getD "")

/-- Lower-case one character (ASCII range, as in Python `str.lower` on the
ASCII categories this program handles). -/
def lowerChar (c : Char) : Char :=
  if 65 ≤ c.toNat && c.toNat ≤ 90 then Char.ofNat (c.toNat + 32) else c

/-- Python `s.lower()`. -/
def pyLower (s : String) : String :=
  String.mk (s.data.map lowerChar)

/-! ## Cells, rows, tables -/

/-- A worksheet cell: either a string or a number.  The program writes the
normalized (float) amount into the Amount column; everything else it writes
is a string. -/
inductive Cell where
  | str (s : String)
  | num (q : ℚ)
deriving DecidableEq, Repr

/-- Underlying string of a cell.  The source applies `.strip()` to the
Date/Category/Note cells, which raises for a non-string; tables written by
this program only hold strings there (see `WfTable`), and every theorem
that quantifies over arbitrary tables assumes it, so the `num` branch is
never relevant. -/
def cellStr : Cell → String
  | .str s => s
  | .num _ => ""

/-- Whether a cell is a string. -/
def Cell.isStr : Cell → Bool
  | .str _ => true
  | .num _ => false

/-- Source `clean_str` applied to a cell read back from the sheet. -/
def cleanCell (c : Cell) : String :=
  pyStrip (cellStr c)

/-- A worksheet row. -/
abbrev Row := List Cell

/-- A worksheet: the rows returned by `get_all_values`, header first. -/
abbrev Table := List Row

/-! ## Python `float()` (used by `parse_amount`) -/

/-- Numeric value of a digit string (most significant digit first). -/
def natOfDigits (l : List Char) : Nat :=
  l.foldl (fun a c => 10 * a + (c.toNat - 48)) 0

/-- Parse the exponent suffix of a float literal whose significand reads
`mantissa` with `fracLen` fractional digits; the value is
`sign * mantissa * 10 ^ (exponent - fracLen)`, built with `mkRat` over
integer arithmetic. -/
def parseExp (sign : ℤ) (mantissa fracLen : Nat) (cs : List Char) : Option ℚ :=
  let p : Bool × List Char :=
    match cs with
    | '+' :: r => (false, r)
    | '-' :: r => (true, r)
    | r => (false, r)
  let ds := p.2.takeWhile Char.isDigit
  let rest := p.2.dropWhile Char.isDigit
  if ds.isEmpty || !rest.isEmpty then none
  else
    let e := natOfDigits ds
    if p.1 then some (mkRat (sign * (mantissa : ℤ)) (10 ^ (fracLen + e)))
    else some (mkRat (sign * ((mantissa * 10 ^ e : ℕ) : ℤ)) (10 ^ fracLen))

/-- Parse a decimal float literal (sign, integer part, optional fractional
part, optional exponent), as accepted by Python `float()` on a stripped
string.  (`inf`/`nan` and digit-group underscores are not representable /
not modelled; no stored or tested value uses them.) -/
def parseFloatChars (cs0 : List Char) : Option ℚ :=
  let p : ℤ × List Char :=
    match cs0 with
    | '+' :: r => (1, r)
    | '-' :: r => (-1, r)
    | r => (1, r)
  let ip := p.2.takeWhile Char.isDigit
  let cs2 := p.2.dropWhile Char.isDigit
  match cs2 with
  | [] => if ip.isEmpty then none else some (mkRat (p.1 * (natOfDigits ip : ℤ)) 1)
  | '.' :: r =>
    let fp := r.takeWhile Char.isDigit
    let cs3 := r.dropWhile Char.isDigit
    if ip.isEmpty && fp.isEmpty then none
    else
      match cs3 with
      | [] => some (mkRat (p.1 * (natOfDigits (ip ++ fp) : ℤ)) (10 ^ fp.length))
      | e :: r2 =>
        if e = 'e' || e = 'E' then
          parseExp p.1 (natOfDigits (ip ++ fp)) fp.length r2
        else none
  | e :: r2 =>
    if (e = 'e' || e = 'E') && !ip.isEmpty then
      parseExp p.1 (natOfDigits ip) 0 r2
    else none

/-- Python `float(s)` for a string argument (whitespace is stripped first);
`none` models the raised `ValueError`. -/
def parseFloat? (s : String) : Option ℚ :=
  parseFloatChars (stripChars s.data)

/-- Source `parse_amount(val)`: `float(val)` with any exception coerced
to `0.0`.  A numeric cell is already a float. -/
def parse_amount : Cell → ℚ
  | .num q => q
  | .str s => (parseFloat? s).getD 0

/-! ## Dates (`datetime.strptime(_, "%Y-%m-%d")`) -/

/-- A calendar date. -/
structure Date where
  year : Nat
  month : Nat
  day : Nat
deriving DecidableEq, Repr

/-- Python `date` / `datetime` strict comparison (lexicographic). -/
def dateLt (a b : Date) : Bool :=
  decide (a.year < b.year) ||
    (a.year == b.year &&
      (decide (a.month < b.month) ||
        (a.month == b.month && decide (a.day < b.day))))

/-- Gregorian leap year. -/
def isLeap (y : Nat) : Bool :=
  y % 4 == 0 && (y % 100 != 0 || y % 400 == 0)

/-- Number of days in a month, as validated by `datetime`. -/
def daysInMonth (y m : Nat) : Nat :=
  if m = 2 then (if isLeap y then 29 else 28)
  else if m == 4 || m == 6 || m == 9 || m == 11 then 30
  else 31

/-- Structural part of `strptime(s, "%Y-%m-%d")`: exactly four year digits,
one or two month digits, one or two day digits, nothing else. -/
def parseDateChars (cs : List Char) : Option (Nat × Nat × Nat) :=
  let ys := cs.takeWhile Char.isDigit
  let r1 := cs.dropWhile Char.isDigit
  if ys.length ≠ 4 then none else
  match r1 with
  | '-' :: r2 =>
    let ms := r2.takeWhile Char.isDigit
    let r3 := r2.dropWhile Char.isDigit
    if ms.length = 0 || 2 < ms.length then none else
    match r3 with
    | '-' :: r4 =>
      let ds := r4.takeWhile Char.isDigit
      let r5 := r4.dropWhile Char.isDigit
      if ds.length = 0 || 2 < ds.length || !r5.isEmpty then none
      else some (natOfDigits ys, natOfDigits ms, natOfDigits ds)
    | _ => none
  | _ => none

/-- `datetime.strptime(s, "%Y-%m-%d")`; `none` models the raised
`ValueError` (bad shape, month/day out of range, or year 0). -/
def parseDate? (s : String) : Option Date :=
  match parseDateChars s.data with
  | none => none
  | some (y, m, d) =>
    if 1 ≤ y ∧ 1 ≤ m ∧ m ≤ 12 ∧ 1 ≤ d ∧ d ≤ daysInMonth y m then
      some ⟨y, m, d⟩
    else none

/-- English month name, as produced by `strftime("%B")`. -/
def monthName : Nat → String
  | 1 => "January"
  | 2 => "February"
  | 3 => "March"
  | 4 => "April"
  | 5 => "May"
  | 6 => "June"
  | 7 => "July"
  | 8 => "August"
  | 9 => "September"
  | 10 => "October"
  | 11 => "November"
  | 12 => "December"
  | _ => ""

/-- Source `month_title_from_date`: `dt.strftime("%B %Y")`. -/
def month_title_from_date (d : Date) : String :=
  monthName d.month ++ " " ++ toString d.year

/-- Two-digit zero-padded rendering (`strftime("%d")` and `"%m"`). -/
def pad2 (n : Nat) : String :=
  if n < 10 then "0" ++ toString n else toString n

/-- `datetime.today().strftime("%Y-%m-%d")`. -/
def dateToStr (d : Date) : String :=
  toString d.year ++ "-" ++ pad2 d.month ++ "-" ++ pad2 d.day

/-! ## Row access inside the upsert scan -/

/-- Defensive padding of a scanned row to four columns
(`row += [""] * (4 - len(row))`). -/
def padRow (r : Row) : Row :=
  r ++ List.replicate (4 - r.length) (.str "")

/-- Cell `j` (0-based) of a row after defensive padding. -/
def rowCell (r : Row) (j : Nat) : Cell :=
  (padRow r).getD j (.str "")

/-- Scan field `row_date = clean_str(row[0])`. -/
def row_date (r : Row) : String := cleanCell (rowCell r 0)

/-- Scan field `row_category = clean_str(row[1])`. -/
def row_category (r : Row) : String := cleanCell (rowCell r 1)

/-- Scan field `row_amount = parse_amount(row[2])`. -/
def row_amount (r : Row) : ℚ := parse_amount (rowCell r 2)

/-- Scan field `row_note = clean_str(row[3])`. -/
def row_note (r : Row) : String := cleanCell (rowCell r 3)

/-- Parsed date of a row, used for chronological positioning. -/
def rowDate? (r : Row) : Option Date := parseDate? (row_date r)

/-- Chronological-insertion test for one row: the row's date parses and is
strictly later than the candidate's (`date_obj < existing_dt`); a parse
failure is ignored (`except: pass`). -/
def isLater (date_obj : Date) (r : Row) : Bool :=
  match rowDate? r with
  | some existing_dt => dateLt date_obj existing_dt
  | none => false

/-- Exact-duplicate test of the scan: date string equality, case-insensitive
category equality, numeric amount equality, note equality. -/
def dupMatch (date_str category : String) (amount : ℚ) (note : String) (r : Row) : Bool :=
  row_date r == date_str && pyLower (row_category r) == pyLower category &&
    row_amount r == amount && row_note r == note

/-- Update-target test of the scan: same date string and case-insensitive
same category. -/
def dateCatMatch (date_str category : String) (r : Row) : Bool :=
  row_date r == date_str && pyLower (row_category r) == pyLower category

/-- Outcome of the scan loop: a duplicate was found and the loop broke, or
the loop finished with the two trackers (1-based sheet row indices). -/
inductive ScanOut where
  | dup
  | done (update_row_index insert_index : Option Nat)
deriving DecidableEq, Repr

/-- The scan loop (`for idx in range(1, len(all_values))`), carried over the
data rows with `idx` the 0-based index of the current row in `all_values`.
The insertion tracker is updated before the duplicate check breaks the
loop, and each tracker is only written while still unset, exactly as in
the source. -/
def scanRows (date_obj : Date) (date_str category : String) (amount : ℚ)
    (note : String) : List Row → Nat → Option Nat → Option Nat → ScanOut
  | [], _, u, i => .done u i
  | r :: rest, idx, u, i =>
    let i1 := if i.isNone && isLater date_obj r then some (idx + 1) else i
    if dupMatch date_str category amount note r then .dup
    else
      let u1 := if u.isNone && dateCatMatch date_str category r then some (idx + 1) else u
      scanRows date_obj date_str category amount note rest (idx + 1) u1 i1

/-! ## Worksheet operations (gspread calls) -/

/-- The fixed header row. -/
def headerRow : Row :=
  [.str "Date", .str "Category", .str "Amount", .str "Note"]

/-- Header check of `ensure_header`: the first row, padded to four columns,
starts with the header strings. -/
def header_ok (values : Table) : Bool :=
  match values with
  | [] => false
  | first :: _ => (padRow first).take 4 == headerRow

/-- `ws.update("A1:D1", [["Date", "Category", "Amount", "Note"]])`. -/
def updateHeaderRange : Table → Table
  | [] => [headerRow]
  | first :: rest => (headerRow ++ first.drop 4) :: rest

/-- Source `ensure_header` (the cosmetic formatting step has no effect on
cell values and is dropped). -/
def ensure_header (t : Table) : Table :=
  if header_ok t then t else updateHeaderRange t

/-- Overwrite cell `c` (1-based) of a row, extending the row with empty
cells if it is shorter than the target column. -/
def setCellInRow (row : Row) (c : Nat) (v : Cell) : Row :=
  (row ++ List.replicate (c - row.length) (Cell.str "")).set (c - 1) v

/-- `ws.update_cell(r, c, v)` with 1-based row and column. -/
def update_cell (t : Table) (r c : Nat) (v : Cell) : Table :=
  match t.get? (r - 1) with
  | some row => t.set (r - 1) (setCellInRow row c v)
  | none => t

/-- `ws.insert_row(row, idx)`: the new row becomes row `idx` (1-based). -/
def insert_row (t : Table) (row : Row) (idx : Nat) : Table :=
  t.take (idx - 1) ++ row :: t.drop (idx - 1)

/-- `ws.append_row(row)`. -/
def append_row (t : Table) (row : Row) : Table :=
  t ++ [row]

/-! ## The upsert -/

/-- Result dictionary of `add_or_update_expense`: `{"status": "ok",
"action": a}` or `{"status": "error", "message": m}`. -/
inductive Outcome where
  | ok (action : String)
  | err (message : String)
deriving DecidableEq, Repr

/-- Both success messages of the two `Added` paths (append and
chronological insert). -/
def Outcome.isAdded : Outcome → Bool
  | .ok a => a == "Expense added successfully!" || a == "Inserted the new expense!"
  | .err _ => false

/-- Body of `add_or_update_expense` from the `all_values` fetch onward,
with the candidate fields already normalized.  In the source the trackers
are tested with Python truthiness (`if update_row_index:`); a set tracker
is always at least 2, so this coincides with `is not None`. -/
def add_or_update_core (date_obj : Date) (date_str category : String) (amount : ℚ)
    (note : String) (all_values : Table) : Outcome × Table :=
  if all_values.isEmpty then
    (.ok "Expense added successfully!",
      append_row (ensure_header all_values)
        [.str date_str, .str category, .num amount, .str note])
  else
    match scanRows date_obj date_str category amount note (all_values.drop 1) 1 none none with
    | .dup => (.err "Duplicate expense found. Entry not added.", all_values)
    | .done u i =>
      match u with
      | some r =>
        (.ok "Updated the existing expense!",
          update_cell (update_cell all_values r 3 (.num amount)) r 4 (.str note))
      | none =>
        let new_row : Row := [.str date_str, .str category, .num amount, .str note]
        match i with
        | some idx => (.ok "Inserted the new expense!", insert_row all_values new_row idx)
        | none => (.ok "Expense added successfully!", append_row all_values new_row)

/-! ## The spreadsheet store (one table per month title) -/

/-- The spreadsheet: worksheets keyed by title, in creation order. -/
abbrev Store := List (String × Table)

/-- Look up a worksheet by title (`ss.worksheet(title)`). -/
def storeGet : Store → String → Option Table
  | [], _ => none
  | (k, t) :: rest, key => if k = key then some t else storeGet rest key

/-- Persist a worksheet's contents under a title, creating the worksheet
if absent (`ss.add_worksheet`). -/
def storeSet : Store → String → Table → Store
  | [], key, t => [(key, t)]
  | (k, t0) :: rest, key, t =>
    if k = key then (k, t) :: rest else (k, t0) :: storeSet rest key t

/-- Source `get_or_create_worksheet`: open or create the month's
worksheet (a freshly created sheet reads back as no rows) and ensure the
header; returns the worksheet contents and the updated spreadsheet. -/
def get_or_create_worksheet (st : Store) (title : String) : Table × Store :=
  let ws := ensure_header ((storeGet st title).getD [])
  (ws, storeSet st title ws)

/-- Source `add_or_update_expense`.  `none` models the `ValueError` raised
by `strptime` on an unparseable date, which propagates to the route. -/
def add_or_update_expense (today : Date) (st : Store) (date_str : String)
    (category : Option String) (amount : Cell) (note : Option String) :
    Option (Outcome × Store) :=
  match parseDate? date_str with
  | none => none
  | some date_obj =>
    if dateLt today date_obj then
      some (.err "Future dates are not allowed. Use today or past dates.", st)
    else
      let month_title := month_title_from_date date_obj
      let p := get_or_create_worksheet st month_title
      let q := add_or_update_core date_obj date_str (clean_str category)
        (parse_amount amount) (clean_str note) p.1
      some (q.1, storeSet p.2 month_title q.2)

/-! ## The `add_expense` route -/

/-- JSON body of `POST /add_expense`.  For each key, the outer `Option` is
key presence; for `category` and `note` the inner `Option` distinguishes
JSON `null` (Python `None`) from a string.  `data.get("date")` and
`data.get("amount", 0)` do not distinguish an absent key from `null`
observably (`clean_str`/`parse_amount` send both to the same value), so
those fields collapse the two. -/
structure ReqBody where
  date : Option String
  category : Option (Option String)
  amount : Option Cell
  note : Option (Option String)
deriving DecidableEq, Repr

/-- Source route handler `add_expense`, returning the response dictionary
and the HTTP status code. -/
def add_expense (today : Date) (st : Store) (body : ReqBody) : (Outcome × Store) × Nat :=
  let ds0 := clean_str body.date
  let date_str := if ds0 = "" then dateToStr today else ds0
  let category : Option String :=
    match body.category with
    | none => some "Misc"
    | some c => c
  let amount := body.amount.getD (.num 0)
  let note : Option String :=
    match body.note with
    | none => some ""
    | some x => x
  match add_or_update_expense today st date_str category amount note with
  | some q => (q, match q.1 with | .ok _ => 200 | .err _ => 400)
  | none => ((.err "ValueError: invalid date", st), 500)

/-! ## The aggregation endpoints -/

/-- A record from `ws.get_all_records()`: the row keyed by the header.
gspread numericises cells, so each field is a cell value. -/
structure Rec where
  date : Cell
  category : Cell
  amount : Cell
  note : Cell
deriving DecidableEq, Repr

/-- Python dict lookup `d.get(k)` on a string-keyed float dict modelled as
an insertion-ordered association list. -/
def lookupD : List (String × ℚ) → String → Option ℚ
  | [], _ => none
  | (k, v) :: rest, key => if k = key then some v else lookupD rest key

/-- Python `d[key] = d.get(key, 0.0) + v` on an insertion-ordered dict. -/
def dictAdd : List (String × ℚ) → String → ℚ → List (String × ℚ)
  | [], key, v => [(key, v)]
  | (k, x) :: rest, key, v =>
    if k = key then (k, x + v) :: rest else (k, x) :: dictAdd rest key v

/-- Source `get_summary` reduction over a month's records. -/
def get_summary (records : List Rec) : List (String × ℚ) :=
  records.foldl
    (fun summary r => dictAdd summary (cleanCell r.category) (parse_amount r.amount)) []

/-- Day key of a record in `get_daily_summary`: `strftime("%d")` of the
parsed Date field, `none` when the date does not parse (the row is
skipped by `continue`). -/
def dayKey? (r : Rec) : Option String :=
  (parseDate? (cleanCell r.date)).map (fun d => pad2 d.day)

/-- Ordering used by `sorted(daily.keys(), key=lambda x: int(x))`. -/
def byDayLe (a b : String × ℚ) : Prop :=
  natOfDigits a.1.data ≤ natOfDigits b.1.data

instance : DecidableRel byDayLe := fun _ _ => Nat.decLe _ _

instance : IsTotal (String × ℚ) byDayLe :=
  ⟨fun _ _ => Nat.le_total _ _⟩

instance : IsTrans (String × ℚ) byDayLe :=
  ⟨fun _ _ _ h1 h2 => Nat.le_trans h1 h2⟩

/-- Source `get_daily_summary` reduction over a month's records, emitted
in ascending numeric day order (Python rebuilds the dict over the sorted
keys; keys are distinct, so any correct sort yields that dict). -/
def get_daily_summary (records : List Rec) : List (String × ℚ) :=
  let daily := records.foldl
    (fun daily r =>
      match dayKey? r with
      | some k => dictAdd daily k (parse_amount r.amount)
      | none => daily) []
  List.insertionSort byDayLe daily

/-! ## Well-formedness and sortedness -/

/-- Cells the scan strips are strings.  Every row this program writes
satisfies this; a non-string Date/Category/Note cell would make the
source raise inside `clean_str` (see `cellStr`). -/
def WfRow (r : Row) : Bool :=
  (rowCell r 0).isStr && (rowCell r 1).isStr && (rowCell r 3).isStr

/-- All rows of a table are well-formed. -/
def WfTable (t : Table) : Bool := t.all WfRow

/-- The Date and Category fields of a record are strings (as
`get_all_records` returns for the rows this program writes). -/
def WfRec (r : Rec) : Bool := r.date.isStr && r.category.isStr

/-- Non-strict date comparison between two rows; only defined (true-able)
when both dates parse. -/
def rowLe (r1 r2 : Row) : Bool :=
  match rowDate? r1, rowDate? r2 with
  | some d1, some d2 => !dateLt d2 d1
  | _, _ => false

/-- Consecutive rows are pairwise non-decreasing by date. -/
def chainRowLe : List Row → Bool
  | [] => true
  | [_] => true
  | r1 :: r2 :: rest => rowLe r1 r2 && chainRowLe (r2 :: rest)

/-- Data rows sorted ascending by date: every date parses and consecutive
rows are non-decreasing. -/
def SortedRows (rows : List Row) : Prop :=
  rows.all (fun r => (rowDate? r).isSome) = true ∧ chainRowLe rows = true

/-- Index of the first row satisfying a predicate. -/
def firstIdx? {α : Type} (p : α → Bool) : List α → Option Nat
  | [] => none
  | x :: rest => if p x then some 0 else (firstIdx? p rest).map (· + 1)

/-- The worked aggregation example of the specification: rows
(2025-09-01, Food, 100), (2025-09-01, Travel, 50), (2025-09-02, Food, 25). -/
def exampleRecords : List Rec :=
  [⟨.str "2025-09-01", .str "Food", .num 100, .str ""⟩,
   ⟨.str "2025-09-01", .str "Travel", .num 50, .str ""⟩,
   ⟨.str "2025-09-02", .str "Food", .num 25, .str ""⟩]

/-! ## Lemmas: stripping -/

theorem dropTrailingWs_shape (c : Char) (cs : List Char) :
    dropTrailingWs (c :: cs) = [] ∨ ∃ r, dropTrailingWs (c :: cs) = c :: r := by
  by_cases h : (dropTrailingWs cs).isEmpty && pyWsp c
  · left
    simp [dropTrailingWs, h]
  · right
    exact ⟨dropTrailingWs cs, by simp [dropTrailingWs, h]⟩

theorem dropTrailingWs_idem (l : List Char) :
    dropTrailingWs (dropTrailingWs l) = dropTrailingWs l := by
  induction l with
  | nil => rfl
  | cons c cs ih =>
    by_cases h : ((dropTrailingWs cs).isEmpty && pyWsp c) = true
    · simp [dropTrailingWs, h]
    · have hd : dropTrailingWs (c :: cs) = c :: dropTrailingWs cs := by
        simp only [dropTrailingWs]
        rw [if_neg h]
      rw [hd]
      have hstep : dropTrailingWs (c :: dropTrailingWs cs) =
          if (dropTrailingWs (dropTrailingWs cs)).isEmpty && pyWsp c then []
          else c :: dropTrailingWs (dropTrailingWs cs) := rfl
      rw [hstep, ih, if_neg h]

theorem dropWhile_shape (p : Char → Bool) (l : List Char) :
    l.dropWhile p = [] ∨ ∃ c r, l.dropWhile p = c :: r ∧ p c = false := by
  induction l with
  | nil => exact Or.inl rfl
  | cons c cs ih =>
    by_cases h : p c
    · simpa [List.dropWhile_cons, h] using ih
    · exact Or.inr ⟨c, cs, by simp [List.dropWhile_cons, h], by simp [h]⟩

theorem stripChars_idem (l : List Char) : stripChars (stripChars l) = stripChars l := by
  unfold stripChars
  rcases dropWhile_shape pyWsp l with h | ⟨c, r, h, hc⟩
  · rw [h]
    rfl
  · rw [h]
    rcases dropTrailingWs_shape c r with h2 | ⟨r2, h2⟩
    · rw [h2]
      rfl
    · rw [h2]
      simp only [List.dropWhile_cons, hc, Bool.false_eq_true, if_false]
      rw [← h2, dropTrailingWs_idem]

theorem pyStrip_idem (s : String) : pyStrip (pyStrip s) = pyStrip s := by
  unfold pyStrip
  rw [stripChars_idem]

theorem pyStrip_clean_str (s : Option String) : pyStrip (clean_str s) = clean_str s :=
  pyStrip_idem _

theorem dropWhile_eq_self_of_none (p : Char → Bool) (l : List Char)
    (h : ∀ c ∈ l, p c = false) : l.dropWhile p = l := by
  cases l with
  | nil => rfl
  | cons c cs => simp [List.dropWhile_cons, h c (by simp)]

theorem dropTrailingWs_eq_self_of_none (l : List Char)
    (h : ∀ c ∈ l, pyWsp c = false) : dropTrailingWs l = l := by
  induction l with
  | nil => rfl
  | cons c cs ih =>
    have hc : pyWsp c = false := h c (by simp)
    have ih2 := ih (fun x hx => h x (by simp [hx]))
    simp [dropTrailingWs, ih2, hc]

theorem stripChars_eq_self_of_none (l : List Char)
    (h : ∀ c ∈ l, pyWsp c = false) : stripChars l = l := by
  unfold stripChars
  rw [dropWhile_eq_self_of_none _ _ h, dropTrailingWs_eq_self_of_none _ h]

theorem pyWsp_eq_false_of_isDigit {c : Char} (h : c.isDigit = true) : pyWsp c = false := by
  have h1 : c ≠ ' ' := fun e => by subst e; exact absurd h (by decide)
  have h2 : c ≠ '\t' := fun e => by subst e; exact absurd h (by decide)
  have h3 : c ≠ '\n' := fun e => by subst e; exact absurd h (by decide)
  have h4 : c ≠ '\r' := fun e => by subst e; exact absurd h (by decide)
  have h5 : c ≠ '\x0b' := fun e => by subst e; exact absurd h (by decide)
  have h6 : c ≠ '\x0c' := fun e => by subst e; exact absurd h (by decide)
  simp [pyWsp, h1, h2, h3, h4, h5, h6]

/-! ## Lemmas: a parseable date string is already stripped -/

theorem parseDateChars_chars {cs : List Char} {v : Nat × Nat × Nat}
    (h : parseDateChars cs = some v) : ∀ c ∈ cs, c.isDigit = true ∨ c = '-' := by
  intro c hc
  simp only [parseDateChars] at h
  split at h
  · exact absurd h (by simp)
  split at h
  case _ r2 heq1 =>
    split at h
    · exact absurd h (by simp)
    split at h
    case _ r4 heq2 =>
      split at h
      · exact absurd h (by simp)
      case _ hguard =>
        have hr5 : List.dropWhile Char.isDigit r4 = [] := by
          simp only [Bool.or_eq_true, decide_eq_true_eq, Bool.not_eq_true',
            not_or, Bool.not_eq_false] at hguard
          exact List.isEmpty_iff.mp hguard.2
        rw [← List.takeWhile_append_dropWhile Char.isDigit cs, heq1] at hc
        rcases List.mem_append.mp hc with h1 | h1
        · exact Or.inl (List.mem_takeWhile_imp h1)
        rcases List.mem_cons.mp h1 with rfl | h1
        · exact Or.inr rfl
        rw [← List.takeWhile_append_dropWhile Char.isDigit r2, heq2] at h1
        rcases List.mem_append.mp h1 with h2 | h2
        · exact Or.inl (List.mem_takeWhile_imp h2)
        rcases List.mem_cons.mp h2 with rfl | h2
        · exact Or.inr rfl
        rw [← List.takeWhile_append_dropWhile Char.isDigit r4, hr5,
          List.append_nil] at h2
        exact Or.inl (List.mem_takeWhile_imp h2)
    case _ heq2 => exact absurd h (by simp)
  case _ heq1 => exact absurd h (by simp)

theorem pyStrip_eq_self_of_parseDate {s : String} {d : Date}
    (h : parseDate? s = some d) : pyStrip s = s := by
  have hchars : ∀ c ∈ s.data, c.isDigit = true ∨ c = '-' := by
    unfold parseDate? at h
    cases hp : parseDateChars s.data with
    | none => rw [hp] at h; exact absurd h (by simp)
    | some v => exact parseDateChars_chars hp
  have hno : ∀ c ∈ s.data, pyWsp c = false := by
    intro c hc
    rcases hchars c hc with hd | rfl
    · exact pyWsp_eq_false_of_isDigit hd
    · decide
  show String.mk (stripChars s.data) = s
  rw [stripChars_eq_self_of_none _ hno]

/-! ## Lemmas: date comparison -/

theorem dateLt_iff {a b : Date} : dateLt a b = true ↔
    a.year < b.year ∨ (a.year = b.year ∧
      (a.month < b.month ∨ (a.month = b.month ∧ a.day < b.day))) := by
  simp [dateLt]

theorem dateLt_asymm {a b : Date} (h : dateLt a b = true) : dateLt b a = false := by
  rw [Bool.eq_false_iff, Ne, dateLt_iff]
  rw [dateLt_iff] at h
  omega

/-! ## Lemmas: the scan loop -/

theorem firstIdx?_cons {α : Type} (p : α → Bool) (x : α) (l : List α) :
    firstIdx? p (x :: l) = if p x then some 0 else (firstIdx? p l).map (· + 1) := rfl

theorem firstIdx?_eq_none {α : Type} (p : α → Bool) (l : List α) :
    firstIdx? p l = none ↔ ∀ x ∈ l, p x = false := by
  induction l with
  | nil => simp [firstIdx?]
  | cons x rest ih =>
    by_cases hx : p x = true
    · simp [firstIdx?_cons, hx]
    · rw [Bool.not_eq_true] at hx
      simp [firstIdx?_cons, hx, ih]

theorem firstIdx?_spec {α : Type} (p : α → Bool) :
    ∀ (l : List α) (k : Nat), firstIdx? p l = some k →
      (∃ x, l.get? k = some x ∧ p x = true) ∧
        ∀ j < k, ∀ y, l.get? j = some y → p y = false := by
  intro l
  induction l with
  | nil => intro k h; exact absurd h (by simp [firstIdx?])
  | cons x rest ih =>
    intro k h
    by_cases hx : p x = true
    · rw [firstIdx?_cons, if_pos hx] at h
      cases h
      exact ⟨⟨x, rfl, hx⟩, fun j hj => by omega⟩
    · rw [Bool.not_eq_true] at hx
      rw [firstIdx?_cons, if_neg (by simp [hx]), Option.map_eq_some'] at h
      obtain ⟨k0, hk0, rfl⟩ := h
      obtain ⟨⟨y, hy, hpy⟩, hfirst⟩ := ih k0 hk0
      refine ⟨⟨y, by simpa using hy, hpy⟩, ?_⟩
      intro j hj z hz
      cases j with
      | zero => cases hz; exact hx
      | succ j0 =>
        exact hfirst j0 (by omega) z (by simpa using hz)

theorem opt_step (u X : Option Nat) (b : Bool) (n : Nat) :
    (if u.isNone && b then some n else u).or X = u.or (if b then some n else X) := by
  cases u <;> cases b <;> simp [Option.or]

theorem map_shift (o : Option Nat) (idx : Nat) :
    (o.map (· + 1)).map (fun k => idx + k + 1) = o.map (fun k => idx + 1 + k + 1) := by
  cases o with
  | none => rfl
  | some k =>
    simp only [Option.map_some']
    congr 1
    omega

theorem scanRows_dup_of_any (d : Date) (ds cat : String) (amt : ℚ) (nt : String) :
    ∀ (l : List Row) (idx : Nat) (u i : Option Nat),
      l.any (dupMatch ds cat amt nt) = true →
      scanRows d ds cat amt nt l idx u i = .dup := by
  intro l
  induction l with
  | nil => intro idx u i h; simp at h
  | cons r rest ih =>
    intro idx u i h
    by_cases hr : dupMatch ds cat amt nt r = true
    · simp [scanRows, hr]
    · rw [Bool.not_eq_true] at hr
      rw [List.any_cons, hr, Bool.false_or] at h
      simp only [scanRows, hr, Bool.false_eq_true, if_false]
      exact ih (idx + 1) _ _ h

theorem scanRows_no_dup (d : Date) (ds cat : String) (amt : ℚ) (nt : String) :
    ∀ (l : List Row) (idx : Nat) (u i : Option Nat),
      (∀ r ∈ l, dupMatch ds cat amt nt r = false) →
      scanRows d ds cat amt nt l idx u i =
        .done (u.or ((firstIdx? (dateCatMatch ds cat) l).map (fun k => idx + k + 1)))
          (i.or ((firstIdx? (isLater d) l).map (fun k => idx + k + 1))) := by
  intro l
  induction l with
  | nil =>
    intro idx u i _
    simp [scanRows, firstIdx?, Option.or]
    cases u <;> cases i <;> simp [Option.or]
  | cons r rest ih =>
    intro idx u i h
    have hr : dupMatch ds cat amt nt r = false := h r (by simp)
    simp only [scanRows, hr, Bool.false_eq_true, if_false]
    rw [ih (idx + 1) _ _ (fun x hx => h x (by simp [hx]))]
    rw [firstIdx?_cons, firstIdx?_cons]
    congr 1
    · rw [opt_step]
      congr 1
      split
      · simp
      · rw [map_shift]
    · rw [opt_step]
      congr 1
      split
      · simp
      · rw [map_shift]

theorem scanRows_stop_at_dup (d : Date) (ds cat : String) (amt : ℚ) (nt : String) :
    ∀ (l : List Row) (k idx : Nat) (u i : Option Nat),
      firstIdx? (dupMatch ds cat amt nt) l = some k →
      scanRows d ds cat amt nt l idx u i =
        scanRows d ds cat amt nt (l.take (k + 1)) idx u i := by
  intro l
  induction l with
  | nil => intro k idx u i h; exact absurd h (by simp [firstIdx?])
  | cons r rest ih =>
    intro k idx u i h
    by_cases hr : dupMatch ds cat amt nt r = true
    · simp [scanRows, hr, List.take]
    · rw [Bool.not_eq_true] at hr
      rw [firstIdx?_cons, if_neg (by simp [hr]), Option.map_eq_some'] at h
      obtain ⟨k0, hk0, rfl⟩ := h
      simp only [scanRows, hr, Bool.false_eq_true, if_false, List.take]
      rw [ih k0 (idx + 1) _ _ hk0]

/-! ## Lemmas: rows and cells -/

theorem rowCell_eq_get? (r : Row) (j : Nat) (hj : j < 4) :
    rowCell r j = ((r.get? j).getD (Cell.str "")) := by
  unfold rowCell padRow
  rcases Nat.lt_or_ge j r.length with h | h
  · rw [List.getD, List.get?_eq_getElem?, List.getElem?_append_left h]
    rw [List.get?_eq_getElem?]
  · rw [List.getD, List.get?_eq_getElem?, List.getElem?_append_right h,
      List.getElem?_replicate]
    have h2 : j - r.length < 4 - r.length := by omega
    rw [if_pos h2]
    have h3 : r.get? j = none := by
      rw [List.get?_eq_getElem?, List.getElem?_eq_none]
      omega
    rw [h3]
    rfl

theorem setCellInRow_length (row : Row) (c : Nat) (v : Cell) :
    (setCellInRow row c v).length = max row.length c := by
  simp [setCellInRow]
  omega

theorem setCellInRow_get?_at (row : Row) (c : Nat) (v : Cell) (j : Nat)
    (hc : 1 ≤ c) (hj : j = c - 1) : (setCellInRow row c v).get? j = some v := by
  subst hj
  unfold setCellInRow
  rw [List.get?_eq_getElem?, List.getElem?_set_self]
  simp
  omega

theorem setCellInRow_get?_ne (row : Row) (c : Nat) (v : Cell) (j : Nat)
    (hj : j ≠ c - 1) :
    (setCellInRow row c v).get? j =
      (row ++ List.replicate (c - row.length) (Cell.str "")).get? j := by
  unfold setCellInRow
  rw [List.get?_eq_getElem?, List.get?_eq_getElem?, List.getElem?_set_ne (Ne.symm hj)]

theorem get?_append_pad (row : Row) (m j : Nat) :
    ((row ++ List.replicate m (Cell.str "")).get? j).getD (Cell.str "") =
      (row.get? j).getD (Cell.str "") := by
  rcases Nat.lt_or_ge j row.length with h | h
  · rw [List.get?_eq_getElem?, List.getElem?_append_left h, List.get?_eq_getElem?]
  · have h3 : row.get? j = none := by
      rw [List.get?_eq_getElem?, List.getElem?_eq_none]
      omega
    rw [h3, List.get?_eq_getElem?, List.getElem?_append_right h, List.getElem?_replicate]
    rcases Nat.lt_or_ge (j - row.length) m with h2 | h2
    · rw [if_pos h2]
      rfl
    · rw [if_neg (by omega)]

theorem rowCell_after_update (row : Row) (a b : Cell) (j : Nat) (hj : j < 4) :
    rowCell (setCellInRow (setCellInRow row 3 a) 4 b) j =
      if j = 2 then a else if j = 3 then b else rowCell row j := by
  rw [rowCell_eq_get? _ _ hj]
  by_cases h3 : j = 3
  · subst h3
    rw [setCellInRow_get?_at _ 4 _ 3 (by omega) (by omega)]
    rfl
  by_cases h2 : j = 2
  · subst h2
    rw [setCellInRow_get?_ne _ _ _ _ (by omega), get?_append_pad,
      setCellInRow_get?_at _ 3 _ 2 (by omega) (by omega)]
    rfl
  · rw [setCellInRow_get?_ne _ _ _ _ (by omega), get?_append_pad,
      setCellInRow_get?_ne _ _ _ _ (by omega), get?_append_pad,
      ← rowCell_eq_get? _ _ hj, if_neg h2, if_neg h3]

theorem rowCell_quad (a b c d : Cell) :
    rowCell [a, b, c, d] 0 = a ∧ rowCell [a, b, c, d] 1 = b ∧
      rowCell [a, b, c, d] 2 = c ∧ rowCell [a, b, c, d] 3 = d :=
  ⟨rfl, rfl, rfl, rfl⟩

/-! ## Lemmas: table mutations -/

theorem update_cell_length (t : Table) (r c : Nat) (v : Cell) :
    (update_cell t r c v).length = t.length := by
  unfold update_cell
  split
  · simp
  · rfl

theorem update_cell_get?_ne (t : Table) (r c : Nat) (v : Cell) (j : Nat)
    (h : j ≠ r - 1) : (update_cell t r c v).get? j = t.get? j := by
  unfold update_cell
  split
  · rw [List.get?_eq_getElem?, List.get?_eq_getElem?, List.getElem?_set_ne (Ne.symm h)]
  · rfl

theorem update_cell_get?_self (t : Table) (r c : Nat) (v : Cell) (row : Row) (j : Nat)
    (hj : j = r - 1) (h : t.get? j = some row) :
    (update_cell t r c v).get? j = some (setCellInRow row c v) := by
  subst hj
  unfold update_cell
  rw [h]
  have hlt : r - 1 < t.length := List.get?_eq_some.mp h |>.1
  rw [List.get?_eq_getElem?, List.getElem?_set_self hlt]

theorem insert_row_drop1 (t : Table) (row : Row) (k : Nat) (h : t ≠ []) :
    (insert_row t row (k + 2)).drop 1 =
      (t.drop 1).take k ++ row :: (t.drop 1).drop k := by
  cases t with
  | nil => exact absurd rfl h
  | cons h0 rest =>
    show ((h0 :: rest).take (k + 1) ++ row :: (h0 :: rest).drop (k + 1)).drop 1 = _
    rw [List.take_succ_cons, List.drop_succ_cons]
    rfl

theorem append_row_drop1 (t : Table) (row : Row) (h : t ≠ []) :
    (append_row t row).drop 1 = t.drop 1 ++ [row] := by
  cases t with
  | nil => exact absurd rfl h
  | cons h0 rest => rfl

/-! ## Lemmas: header maintenance -/

theorem ensure_header_drop1 (t : Table) : (ensure_header t).drop 1 = t.drop 1 := by
  unfold ensure_header
  split
  · rfl
  · cases t <;> rfl

theorem ensure_header_ne_nil (t : Table) : ensure_header t ≠ [] := by
  unfold ensure_header
  split
  case isTrue h =>
    cases t with
    | nil => simp [header_ok] at h
    | cons a b => simp
  case isFalse h => cases t <;> simp [updateHeaderRange]

theorem ensure_header_length_of_ne_nil (t : Table) (h : t ≠ []) :
    (ensure_header t).length = t.length := by
  unfold ensure_header
  split
  · rfl
  · cases t with
    | nil => exact absurd rfl h
    | cons a b => simp [updateHeaderRange]

/-! ## Lemmas: the spreadsheet store -/

theorem storeGet_storeSet_self (st : Store) (k : String) (t : Table) :
    storeGet (storeSet st k t) k = some t := by
  induction st with
  | nil => simp [storeSet, storeGet]
  | cons p rest ih =>
    by_cases h : p.1 = k
    · simp [storeSet, storeGet, h]
    · cases p
      simp only [storeSet] at *
      rw [if_neg h]
      simp only [storeGet]
      rw [if_neg h]
      exact ih

theorem storeGet_storeSet_ne (st : Store) (k k2 : String) (t : Table) (h : k ≠ k2) :
    storeGet (storeSet st k t) k2 = storeGet st k2 := by
  induction st with
  | nil => simp [storeSet, storeGet, h]
  | cons p rest ih =>
    cases p with
    | mk k0 t0 =>
      by_cases h0 : k0 = k
      · subst h0
        simp only [storeSet, if_pos rfl, storeGet]
        rw [if_neg h, if_neg h]
      · simp only [storeSet]
        rw [if_neg h0]
        by_cases h2 : k0 = k2
        · simp [storeGet, h2]
        · simp only [storeGet]
          rw [if_neg h2, if_neg h2]
          exact ih

/-! ## Lemmas: unfolding the upsert core -/

theorem isEmpty_eq_false_of_ne_nil {t : Table} (h : t ≠ []) : t.isEmpty = false := by
  cases t with
  | nil => exact absurd rfl h
  | cons a b => rfl

theorem core_eq_dup (date_obj : Date) (ds cat : String) (amt : ℚ) (nt : String)
    (ws : Table) (hne : ws ≠ [])
    (hscan : scanRows date_obj ds cat amt nt (ws.drop 1) 1 none none = .dup) :
    add_or_update_core date_obj ds cat amt nt ws =
      (.err "Duplicate expense found. Entry not added.", ws) := by
  unfold add_or_update_core
  rw [isEmpty_eq_false_of_ne_nil hne]
  simp only [Bool.false_eq_true, if_false, hscan]

theorem core_eq_done (date_obj : Date) (ds cat : String) (amt : ℚ) (nt : String)
    (ws : Table) (hne : ws ≠ []) (u i : Option Nat)
    (hscan : scanRows date_obj ds cat amt nt (ws.drop 1) 1 none none = .done u i) :
    add_or_update_core date_obj ds cat amt nt ws =
      match u with
      | some r => (.ok "Updated the existing expense!",
          update_cell (update_cell ws r 3 (.num amt)) r 4 (.str nt))
      | none =>
        match i with
        | some idx => (.ok "Inserted the new expense!",
            insert_row ws [.str ds, .str cat, .num amt, .str nt] idx)
        | none => (.ok "Expense added successfully!",
            append_row ws [.str ds, .str cat, .num amt, .str nt]) := by
  unfold add_or_update_core
  rw [isEmpty_eq_false_of_ne_nil hne]
  simp only [Bool.false_eq_true, if_false, hscan]
  cases u with
  | some r => rfl
  | none => cases i <;> rfl

theorem mem_take_index {α : Type} :
    ∀ (l : List α) (n : Nat) (a : α), a ∈ l.take n →
      ∃ j, j < n ∧ l.get? j = some a := by
  intro l
  induction l with
  | nil => intro n a h; simp at h
  | cons x xs ih =>
    intro n a h
    cases n with
    | zero => simp at h
    | succ m =>
      rw [List.take_succ_cons] at h
      rcases List.mem_cons.mp h with rfl | h2
      · exact ⟨0, by omega, rfl⟩
      · obtain ⟨j, hj, hg⟩ := ih m a h2
        exact ⟨j + 1, by omega, by simpa using hg⟩

theorem dateCat_of_dup {ds cat : String} {amt : ℚ} {nt : String} {r : Row}
    (h : dupMatch ds cat amt nt r = true) : dateCatMatch ds cat r = true := by
  unfold dupMatch at h
  unfold dateCatMatch
  simp only [Bool.and_eq_true] at h ⊢
  exact ⟨h.1.1.1, h.1.1.2⟩

/-! ## Claim C1 -/

/-- C1: if, among the data rows, some row matches the candidate on all four
normalized fields (date string, case-insensitive category, numeric amount,
note), the upsert returns the `Duplicate` rejection and the table is
unchanged — no cell update, insert or append; moreover the scan
short-circuits: it cannot observe anything past the first matching row
(it equals the scan of the table truncated just after that row). -/
theorem C1_exact_duplicate_rejected_no_mutation
    (date_obj : Date) (date_str category : String) (amount : ℚ) (note : String)
    (ws : Table) (hwf : WfTable ws = true) (k : Nat)
    (hdup : firstIdx? (dupMatch date_str category amount note) (ws.drop 1) = some k) :
    add_or_update_core date_obj date_str category amount note ws =
        (.err "Duplicate expense found. Entry not added.", ws) ∧
      scanRows date_obj date_str category amount note (ws.drop 1) 1 none none =
        scanRows date_obj date_str category amount note ((ws.drop 1).take (k + 1)) 1
          none none := by
  obtain ⟨⟨x, hx, hpx⟩, hfirst⟩ := firstIdx?_spec _ _ k hdup
  have hmem : x ∈ ws.drop 1 := List.get?_mem hx
  have hne : ws ≠ [] := by
    intro e
    rw [e] at hx
    simp at hx
  have hany : (ws.drop 1).any (dupMatch date_str category amount note) = true :=
    List.any_eq_true.mpr ⟨x, hmem, hpx⟩
  refine ⟨core_eq_dup _ _ _ _ _ _ hne (scanRows_dup_of_any _ _ _ _ _ _ 1 none none hany), ?_⟩
  exact scanRows_stop_at_dup _ _ _ _ _ _ k 1 none none hdup

theorem C1_witness :
    add_or_update_core ⟨2025, 9, 5⟩ "2025-09-05" "Food" 100 "lunch"
        [headerRow, [.str "2025-09-05", .str "Food", .num 100, .str "lunch"]] =
      (.err "Duplicate expense found. Entry not added.",
        [headerRow, [.str "2025-09-05", .str "Food", .num 100, .str "lunch"]]) :=
  (C1_exact_duplicate_rejected_no_mutation ⟨2025, 9, 5⟩ "2025-09-05" "Food" 100 "lunch"
    [headerRow, [.str "2025-09-05", .str "Food", .num 100, .str "lunch"]]
    (by decide) 0 (by decide)).1

/-! ## Claim C9 -/

theorem none_or_eq (x : Option Nat) : Option.or none x = x := rfl

/-- C9: the upsert never checks the sign of the amount.  For a candidate
whose normalized amount is negative (and no exact-duplicate row), the
operation completes normally: the outcome is `Updated` or one of the two
`Added` outcomes — never a rejection — and the negative amount is written
into some row's Amount cell exactly as given. -/
theorem C9_negative_amounts_accepted
    (date_obj : Date) (date_str category : String) (amount : ℚ) (note : String)
    (ws : Table) (hwf : WfTable ws = true) (hneg : amount < 0)
    (hnodup : ∀ r ∈ ws.drop 1, dupMatch date_str category amount note r = false) :
    ((add_or_update_core date_obj date_str category amount note ws).1 =
        .ok "Updated the existing expense!" ∨
      Outcome.isAdded (add_or_update_core date_obj date_str category amount note ws).1 =
        true) ∧
    ∃ row ∈ (add_or_update_core date_obj date_str category amount note ws).2,
      rowCell row 2 = .num amount := by
  by_cases hne : ws = []
  · subst hne
    have hcore : add_or_update_core date_obj date_str category amount note [] =
        (.ok "Expense added successfully!",
          [headerRow, [.str date_str, .str category, .num amount, .str note]]) := rfl
    rw [hcore]
    exact ⟨Or.inr rfl, [.str date_str, .str category, .num amount, .str note],
      by simp, rfl⟩
  · have hscan := scanRows_no_dup date_obj date_str category amount note
      (ws.drop 1) 1 none none hnodup
    rw [none_or_eq, none_or_eq] at hscan
    cases hfind : firstIdx? (dateCatMatch date_str category) (ws.drop 1) with
    | some k =>
      rw [hfind] at hscan
      simp only [Option.map_some'] at hscan
      obtain ⟨⟨oldRow, hOld, hdc⟩, hfirst⟩ := firstIdx?_spec _ _ k hfind
      have hOld1 : ws.get? (k + 1) = some oldRow := by
        have h2 := hOld
        rw [List.get?_eq_getElem?, List.getElem?_drop] at h2
        rw [List.get?_eq_getElem?]
        have h1k : 1 + k = k + 1 := by omega
        rw [h1k] at h2
        exact h2
      have hcore := core_eq_done date_obj date_str category amount note ws hne _ _ hscan
      rw [hcore]
      refine ⟨Or.inl rfl, setCellInRow (setCellInRow oldRow 3 (.num amount)) 4 (.str note),
        ?_, ?_⟩
      · exact List.get?_mem (update_cell_get?_self _ _ _ _ _ _ (by omega)
          (update_cell_get?_self _ _ _ _ _ _ (by omega) hOld1))
      · rw [rowCell_after_update _ _ _ 2 (by omega), if_pos rfl]
    | none =>
      rw [hfind] at hscan
      simp only [Option.map_none'] at hscan
      cases hlater : firstIdx? (isLater date_obj) (ws.drop 1) with
      | some j =>
        rw [hlater] at hscan
        simp only [Option.map_some'] at hscan
        have hcore := core_eq_done date_obj date_str category amount note ws hne _ _ hscan
        rw [hcore]
        refine ⟨Or.inr rfl, [.str date_str, .str category, .num amount, .str note], ?_, rfl⟩
        unfold insert_row
        simp
      | none =>
        rw [hlater] at hscan
        simp only [Option.map_none'] at hscan
        have hcore := core_eq_done date_obj date_str category amount note ws hne _ _ hscan
        rw [hcore]
        refine ⟨Or.inr rfl, [.str date_str, .str category, .num amount, .str note], ?_, rfl⟩
        unfold append_row
        simp

theorem C9_witness :
    ((add_or_update_core ⟨2025, 9, 5⟩ "2025-09-05" "Refund" (-50) ""
        [headerRow, [.str "2025-09-05", .str "Food", .num 100, .str "lunch"]]).1 =
          .ok "Updated the existing expense!" ∨
      Outcome.isAdded (add_or_update_core ⟨2025, 9, 5⟩ "2025-09-05" "Refund" (-50) ""
        [headerRow, [.str "2025-09-05", .str "Food", .num 100, .str "lunch"]]).1 = true) ∧
    ∃ row ∈ (add_or_update_core ⟨2025, 9, 5⟩ "2025-09-05" "Refund" (-50) ""
        [headerRow, [.str "2025-09-05", .str "Food", .num 100, .str "lunch"]]).2,
      rowCell row 2 = .num (-50) :=
  C9_negative_amounts_accepted ⟨2025, 9, 5⟩ "2025-09-05" "Refund" (-50) ""
    [headerRow, [.str "2025-09-05", .str "Food", .num 100, .str "lunch"]]
    (by decide) (by norm_num) (by decide)

/-! ## Claim C10 -/

theorem padRow_idem (r : Row) : padRow (padRow r) = padRow r := by
  show padRow r ++ List.replicate (4 - (padRow r).length) (Cell.str "") = padRow r
  have h : 4 - (padRow r).length = 0 := by
    simp [padRow]
    omega
  rw [h]
  simp

theorem rowCell_padRow (r : Row) (j : Nat) : rowCell (padRow r) j = rowCell r j := by
  unfold rowCell
  rw [padRow_idem]

theorem dupMatch_padRow (ds cat : String) (amt : ℚ) (nt : String) (r : Row) :
    dupMatch ds cat amt nt (padRow r) = dupMatch ds cat amt nt r := by
  unfold dupMatch row_date row_category row_amount row_note cleanCell
  rw [rowCell_padRow, rowCell_padRow, rowCell_padRow, rowCell_padRow]

theorem dateCatMatch_padRow (ds cat : String) (r : Row) :
    dateCatMatch ds cat (padRow r) = dateCatMatch ds cat r := by
  unfold dateCatMatch row_date row_category cleanCell
  rw [rowCell_padRow, rowCell_padRow]

theorem isLater_padRow (d : Date) (r : Row) :
    isLater d (padRow r) = isLater d r := by
  unfold isLater rowDate? row_date cleanCell
  rw [rowCell_padRow]

/-- C10: the scan is total over ragged data.  Scanning a table whose rows
have been padded to four columns is indistinguishable from scanning the
raw rows (every row is padded before any field access, so no out-of-range
access can occur); a cell missing from a short row reads as the empty
string; and a row whose date field is empty is ignored for chronological
positioning. -/
theorem C10_scan_total_on_ragged_rows :
    (∀ (d : Date) (ds cat : String) (amt : ℚ) (nt : String)
        (rows : List Row) (idx : Nat) (u i : Option Nat),
      scanRows d ds cat amt nt (rows.map padRow) idx u i =
        scanRows d ds cat amt nt rows idx u i) ∧
    (∀ (r : Row) (j : Nat), r.length ≤ j → j < 4 → rowCell r j = .str "") ∧
    (∀ (d : Date) (r : Row), row_date r = "" → isLater d r = false) := by
  refine ⟨?_, ?_, ?_⟩
  · intro d ds cat amt nt rows
    induction rows with
    | nil => intro idx u i; rfl
    | cons r rest ih =>
      intro idx u i
      show scanRows d ds cat amt nt (padRow r :: rest.map padRow) idx u i = _
      simp only [scanRows]
      rw [isLater_padRow, dupMatch_padRow, dateCatMatch_padRow, ih]
  · intro r j hlen hj
    rw [rowCell_eq_get? _ _ hj]
    have h : r.get? j = none := by
      rw [List.get?_eq_getElem?, List.getElem?_eq_none]
      omega
    rw [h]
    rfl
  · intro d r h
    unfold isLater rowDate?
    rw [h]
    have hp : parseDate? "" = none := rfl
    rw [hp]

theorem C10_witness :
    scanRows ⟨2025, 9, 5⟩ "2025-09-05" "Food" 100 "lunch"
        (([[Cell.str "2025-09-01"], []] : List Row).map padRow) 1 none none =
      scanRows ⟨2025, 9, 5⟩ "2025-09-05" "Food" 100 "lunch"
        [[Cell.str "2025-09-01"], []] 1 none none ∧
    rowCell [Cell.str "2025-09-01"] 2 = .str "" ∧
    isLater ⟨2025, 9, 5⟩ ([] : Row) = false :=
  ⟨C10_scan_total_on_ragged_rows.1 ⟨2025, 9, 5⟩ "2025-09-05" "Food" 100 "lunch"
      [[Cell.str "2025-09-01"], []] 1 none none,
    C10_scan_total_on_ragged_rows.2.1 [Cell.str "2025-09-01"] 2 (by decide) (by decide),
    C10_scan_total_on_ragged_rows.2.2 ⟨2025, 9, 5⟩ [] (by decide)⟩

/-! ## Claim C8 -/

/-- C8: in the `add_expense` route the `"Misc"` fallback applies only when
the `category` key is absent: a body whose `category` is present with
value `null` behaves exactly like one with the empty-string category
(`null` is normalized to `""`), and at a concrete input this differs from
the absent-key (`"Misc"`) behaviour. -/
theorem C8_null_category_is_empty_not_misc :
    (∀ (today : Date) (st : Store) (b : ReqBody), b.category = some none →
      add_expense today st b = add_expense today st { b with category := some (some "") }) ∧
    add_expense ⟨2025, 9, 30⟩ [] ⟨some "2025-09-05", some none, some (.num 5), some (some "x")⟩ ≠
      add_expense ⟨2025, 9, 30⟩ [] ⟨some "2025-09-05", none, some (.num 5), some (some "x")⟩ := by
  constructor
  · intro today st b hb
    obtain ⟨bd, bc, ba, bn⟩ := b
    simp only at hb
    subst hb
    rfl
  · decide

theorem C8_witness :
    add_expense ⟨2025, 9, 30⟩ []
        ⟨some "2025-09-05", some none, some (.num 5), some (some "x")⟩ =
      add_expense ⟨2025, 9, 30⟩ []
        ⟨some "2025-09-05", some (some ""), some (.num 5), some (some "x")⟩ :=
  C8_null_category_is_empty_not_misc.1 ⟨2025, 9, 30⟩ []
    ⟨some "2025-09-05", some none, some (.num 5), some (some "x")⟩ rfl

/-! ## Claim C3 -/

theorem chainRowLe_iff (l : List Row) :
    chainRowLe l = true ↔ List.Chain' (fun a b => rowLe a b = true) l := by
  induction l with
  | nil => simp [chainRowLe]
  | cons r rest ih =>
    cases rest with
    | nil => simp [chainRowLe]
    | cons r2 rest2 =>
      rw [show chainRowLe (r :: r2 :: rest2) =
        (rowLe r r2 && chainRowLe (r2 :: rest2)) from rfl]
      rw [Bool.and_eq_true, ih, List.chain'_cons]

theorem rowLe_of_not_later {d : Date} {r rNew : Row} (hr : (rowDate? r).isSome = true)
    (hlater : isLater d r = false) (hNew : rowDate? rNew = some d) :
    rowLe r rNew = true := by
  obtain ⟨dr, hdr⟩ := Option.isSome_iff_exists.mp hr
  unfold rowLe
  rw [hdr, hNew]
  unfold isLater at hlater
  rw [hdr] at hlater
  have hlater2 : dateLt d dr = false := hlater
  show (!dateLt d dr) = true
  rw [hlater2]
  rfl

theorem rowLe_of_later {d : Date} {r rNew : Row}
    (hlater : isLater d r = true) (hNew : rowDate? rNew = some d) :
    rowLe rNew r = true := by
  unfold isLater at hlater
  cases hdr : rowDate? r with
  | none => rw [hdr] at hlater; exact absurd hlater (by simp)
  | some dr =>
    rw [hdr] at hlater
    have hlater2 : dateLt d dr = true := hlater
    unfold rowLe
    rw [hNew, hdr]
    show (!dateLt dr d) = true
    rw [dateLt_asymm hlater2]
    rfl

theorem rowDate?_newRow {ds : String} {dobj : Date} (h : parseDate? ds = some dobj)
    (cat : String) (amt : ℚ) (nt : String) :
    rowDate? [Cell.str ds, Cell.str cat, Cell.num amt, Cell.str nt] = some dobj := by
  unfold rowDate? row_date
  have h0 : rowCell [Cell.str ds, Cell.str cat, Cell.num amt, Cell.str nt] 0 =
      .str ds := rfl
  rw [h0]
  show parseDate? (pyStrip ds) = some dobj
  rw [pyStrip_eq_self_of_parseDate h, h]

/-- C3: with no duplicate and no same-(date, category) row, the upsert
inserts the new row immediately before the first scanned data row whose
date is strictly later than the candidate's, or appends at the end when no
such row exists; on a date-sorted ledger the data rows therefore stay
sorted ascending by date, and upserting dates 2025-09-10, 2025-09-05,
2025-09-20 into an empty ledger yields the Date column 2025-09-05,
2025-09-10, 2025-09-20. -/
theorem C3_chronological_insert_keeps_rows_sorted
    (date_obj : Date) (date_str category : String) (amount : ℚ) (note : String)
    (ws : Table) (hwf : WfTable ws = true) (hne : ws ≠ [])
    (hparse : parseDate? date_str = some date_obj)
    (hnodup : ∀ r ∈ ws.drop 1, dupMatch date_str category amount note r = false)
    (hnodc : firstIdx? (dateCatMatch date_str category) (ws.drop 1) = none)
    (hsorted : SortedRows (ws.drop 1)) :
    (match firstIdx? (isLater date_obj) (ws.drop 1) with
      | some k =>
        add_or_update_core date_obj date_str category amount note ws =
          (.ok "Inserted the new expense!",
            insert_row ws [.str date_str, .str category, .num amount, .str note] (k + 2))
      | none =>
        add_or_update_core date_obj date_str category amount note ws =
          (.ok "Expense added successfully!",
            append_row ws [.str date_str, .str category, .num amount, .str note])) ∧
    SortedRows ((add_or_update_core date_obj date_str category amount note ws).2.drop 1) ∧
    (((add_or_update_expense ⟨2025, 9, 30⟩ [] "2025-09-10" (some "A") (.num 1)
          (some "")).bind
        (fun p => add_or_update_expense ⟨2025, 9, 30⟩ p.2 "2025-09-05" (some "B") (.num 2)
          (some ""))).bind
        (fun p => add_or_update_expense ⟨2025, 9, 30⟩ p.2 "2025-09-20" (some "C") (.num 3)
          (some ""))).map
        (fun p => (((storeGet p.2 "September 2025").getD []).drop 1).map
          (fun r => rowCell r 0)) =
      some [.str "2025-09-05", .str "2025-09-10", .str "2025-09-20"] := by
  obtain ⟨hall, hchainB⟩ := hsorted
  have hchain := (chainRowLe_iff _).mp hchainB
  have hallP : ∀ r ∈ ws.drop 1, (rowDate? r).isSome = true := by
    intro r hr
    exact List.all_eq_true.mp hall r hr
  have hnr : rowDate? [Cell.str date_str, Cell.str category, Cell.num amount,
      Cell.str note] = some date_obj := rowDate?_newRow hparse _ _ _
  have hscan := scanRows_no_dup date_obj date_str category amount note
    (ws.drop 1) 1 none none hnodup
  rw [none_or_eq, none_or_eq, hnodc] at hscan
  simp only [Option.map_none'] at hscan
  cases hlater : firstIdx? (isLater date_obj) (ws.drop 1) with
  | some k =>
    rw [hlater] at hscan
    simp only [Option.map_some'] at hscan
    have h12 : 1 + k + 1 = k + 2 := by omega
    rw [h12] at hscan
    have hcore := core_eq_done date_obj date_str category amount note ws hne _ _ hscan
    obtain ⟨⟨xk, hxk, hlk⟩, hfirstL⟩ := firstIdx?_spec _ _ k hlater
    refine ⟨hcore, ?_, by decide⟩
    rw [hcore]
    show SortedRows ((insert_row ws _ (k + 2)).drop 1)
    rw [insert_row_drop1 _ _ _ hne]
    constructor
    · rw [List.all_eq_true]
      intro r hr
      rcases List.mem_append.mp hr with h1 | h1
      · exact hallP r (List.take_subset _ _ h1)
      rcases List.mem_cons.mp h1 with rfl | h1
      · rw [hnr]; rfl
      · exact hallP r (List.drop_subset _ _ h1)
    · rw [chainRowLe_iff]
      have hta := List.take_append_drop k (ws.drop 1)
      rw [← hta] at hchain
      obtain ⟨hc1, hc2, hbound⟩ := List.chain'_append.mp hchain
      rw [List.chain'_append]
      refine ⟨hc1, ?_, ?_⟩
      · rw [List.chain'_cons']
        refine ⟨?_, hc2⟩
        intro y hy
        rw [List.head?_drop] at hy
        have : (ws.drop 1)[k]? = some xk := by
          rw [← List.get?_eq_getElem?]
          exact hxk
        rw [this] at hy
        cases hy
        exact rowLe_of_later hlk hnr
      · intro x hx y hy
        simp only [List.head?_cons, Option.mem_def, Option.some.injEq] at hy
        subst hy
        have hxmem : x ∈ (ws.drop 1).take k := List.mem_of_getLast?_eq_some hx
        obtain ⟨j, hj, hgj⟩ := mem_take_index _ _ _ hxmem
        have hxlater : isLater date_obj x = false := hfirstL j hj x hgj
        exact rowLe_of_not_later
          (hallP x (List.take_subset _ _ hxmem)) hxlater hnr
  | none =>
    rw [hlater] at hscan
    simp only [Option.map_none'] at hscan
    have hcore := core_eq_done date_obj date_str category amount note ws hne _ _ hscan
    refine ⟨hcore, ?_, by decide⟩
    rw [hcore]
    show SortedRows ((append_row ws _).drop 1)
    rw [append_row_drop1 _ _ hne]
    have hnone := (firstIdx?_eq_none _ _).mp hlater
    constructor
    · rw [List.all_eq_true]
      intro r hr
      rcases List.mem_append.mp hr with h1 | h1
      · exact hallP r h1
      rcases List.mem_cons.mp h1 with rfl | h1
      · rw [hnr]; rfl
      · simp at h1
    · rw [chainRowLe_iff, List.chain'_append]
      refine ⟨hchain, List.chain'_singleton _, ?_⟩
      intro x hx y hy
      simp only [List.head?_cons, Option.mem_def, Option.some.injEq] at hy
      subst hy
      have hxmem : x ∈ ws.drop 1 := List.mem_of_getLast?_eq_some hx
      exact rowLe_of_not_later (hallP x hxmem) (hnone x hxmem) hnr

theorem C3_witness :
    add_or_update_core ⟨2025, 9, 10⟩ "2025-09-10" "Bus" 7 "t"
        [headerRow, [.str "2025-09-05", .str "Food", .num 1, .str ""],
          [.str "2025-09-20", .str "Gym", .num 2, .str ""]] =
      (.ok "Inserted the new expense!",
        insert_row [headerRow, [.str "2025-09-05", .str "Food", .num 1, .str ""],
          [.str "2025-09-20", .str "Gym", .num 2, .str ""]]
          [.str "2025-09-10", .str "Bus", .num 7, .str "t"] 3) ∧
    SortedRows ((add_or_update_core ⟨2025, 9, 10⟩ "2025-09-10" "Bus" 7 "t"
        [headerRow, [.str "2025-09-05", .str "Food", .num 1, .str ""],
          [.str "2025-09-20", .str "Gym", .num 2, .str ""]]).2.drop 1) := by
  have h := C3_chronological_insert_keeps_rows_sorted ⟨2025, 9, 10⟩ "2025-09-10" "Bus" 7 "t"
    [headerRow, [.str "2025-09-05", .str "Food", .num 1, .str ""],
      [.str "2025-09-20", .str "Gym", .num 2, .str ""]]
    (by decide) (by decide) (by decide) (by decide) (by decide) ⟨by decide, by decide⟩
  exact ⟨h.1, h.2.1⟩

/-! ## Claim C5 -/

theorem dupMatch_newRow {ds : String} {dobj : Date} (hds : parseDate? ds = some dobj)
    (cat : String) (amt : ℚ) (nt : String)
    (hcat : pyStrip cat = cat) (hnt : pyStrip nt = nt) :
    dupMatch ds cat amt nt [Cell.str ds, Cell.str cat, Cell.num amt, Cell.str nt] =
      true := by
  unfold dupMatch
  have h0 : row_date [Cell.str ds, Cell.str cat, Cell.num amt, Cell.str nt] =
      pyStrip ds := rfl
  have h1 : row_category [Cell.str ds, Cell.str cat, Cell.num amt, Cell.str nt] =
      pyStrip cat := rfl
  have h2 : row_amount [Cell.str ds, Cell.str cat, Cell.num amt, Cell.str nt] =
      amt := rfl
  have h3 : row_note [Cell.str ds, Cell.str cat, Cell.num amt, Cell.str nt] =
      pyStrip nt := rfl
  rw [h0, h1, h2, h3, pyStrip_eq_self_of_parseDate hds, hcat, hnt]
  simp

theorem core_added_of_no_dateCat
    (date_obj : Date) (ds cat : String) (amt : ℚ) (nt : String) (ws : Table)
    (hne : ws ≠ [])
    (hnodc : ∀ r ∈ ws.drop 1, dateCatMatch ds cat r = false) :
    Outcome.isAdded (add_or_update_core date_obj ds cat amt nt ws).1 = true ∧
    [Cell.str ds, Cell.str cat, Cell.num amt, Cell.str nt] ∈
      (add_or_update_core date_obj ds cat amt nt ws).2.drop 1 ∧
    (add_or_update_core date_obj ds cat amt nt ws).2.length = ws.length + 1 := by
  have hnodup : ∀ r ∈ ws.drop 1, dupMatch ds cat amt nt r = false := by
    intro r hr
    by_contra hc
    rw [Bool.not_eq_false] at hc
    have h2 := dateCat_of_dup hc
    rw [hnodc r hr] at h2
    exact absurd h2 (by simp)
  have hlen1 : 0 < ws.length := List.length_pos.mpr hne
  have hscan := scanRows_no_dup date_obj ds cat amt nt (ws.drop 1) 1 none none hnodup
  rw [none_or_eq, none_or_eq, (firstIdx?_eq_none _ _).mpr hnodc] at hscan
  simp only [Option.map_none'] at hscan
  cases hlater : firstIdx? (isLater date_obj) (ws.drop 1) with
  | some k =>
    rw [hlater] at hscan
    simp only [Option.map_some'] at hscan
    have h12 : 1 + k + 1 = k + 2 := by omega
    rw [h12] at hscan
    have hcore := core_eq_done date_obj ds cat amt nt ws hne _ _ hscan
    rw [hcore]
    obtain ⟨⟨xk, hxk, hlk⟩, hfirstL⟩ := firstIdx?_spec _ _ k hlater
    have hkbound : k < (ws.drop 1).length := (List.get?_eq_some.mp hxk).1
    have hlen2 : (ws.drop 1).length = ws.length - 1 := by simp
    refine ⟨rfl, ?_, ?_⟩
    · rw [insert_row_drop1 _ _ _ hne]
      simp
    · unfold insert_row
      simp
      omega
  | none =>
    rw [hlater] at hscan
    simp only [Option.map_none'] at hscan
    have hcore := core_eq_done date_obj ds cat amt nt ws hne _ _ hscan
    rw [hcore]
    refine ⟨rfl, ?_, ?_⟩
    · rw [append_row_drop1 _ _ hne]
      simp
    · unfold append_row
      simp

/-- C5 counterexample: at a ledger whose September table already holds a
row for (2025-09-05, Food) with amount 10 and note a, upserting the valid
non-future tuple (2025-09-05, Food, 20, b) yields `Updated` — not `Added`
— on the first call, so the claim as stated is false. -/
theorem C5_counterexample :
    (add_or_update_expense ⟨2025, 9, 30⟩
        [("September 2025",
          [headerRow, [.str "2025-09-05", .str "Food", .num 10, .str "a"]])]
        "2025-09-05" (some "Food") (.num 20) (some "b")).map Prod.fst =
      some (.ok "Updated the existing expense!") ∧
    (add_or_update_expense ⟨2025, 9, 30⟩
        [("September 2025",
          [headerRow, [.str "2025-09-05", .str "Food", .num 10, .str "a"]])]
        "2025-09-05" (some "Food") (.num 20) (some "b")).map
        (fun p => Outcome.isAdded p.1) = some false :=
  ⟨by decide, by decide⟩

/-- C5 (amended): for every ledger state whose month table has no data row
matching the candidate's (date, case-insensitive category), upserting a
valid non-future tuple twice yields `Added` then `Duplicate`, and the
month table's row count after the second call equals the count after the
first call (the second call changes nothing). -/
theorem C5_amended_added_then_duplicate
    (today : Date) (st : Store) (date_str : String) (category : Option String)
    (amount : Cell) (note : Option String) (d : Date)
    (hparse : parseDate? date_str = some d) (hfut : dateLt today d = false)
    (hwf : WfTable ((storeGet st (month_title_from_date d)).getD []) = true)
    (hnodc : ∀ r ∈ ((storeGet st (month_title_from_date d)).getD []).drop 1,
      dateCatMatch date_str (clean_str category) r = false) :
    ∃ o1 st1 o2 st2 t1 t2,
      add_or_update_expense today st date_str category amount note = some (o1, st1) ∧
      Outcome.isAdded o1 = true ∧
      add_or_update_expense today st1 date_str category amount note = some (o2, st2) ∧
      o2 = .err "Duplicate expense found. Entry not added." ∧
      storeGet st1 (month_title_from_date d) = some t1 ∧
      storeGet st2 (month_title_from_date d) = some t2 ∧
      t2.length = t1.length := by
  have h00 : pyStrip (clean_str category) = clean_str category := pyStrip_clean_str _
  have h01 : pyStrip (clean_str note) = clean_str note := pyStrip_clean_str _
  have hnodc2 : ∀ r ∈ (ensure_header ((storeGet st (month_title_from_date d)).getD
      [])).drop 1, dateCatMatch date_str (clean_str category) r = false := by
    rw [ensure_header_drop1]
    exact hnodc
  have hne1 := ensure_header_ne_nil ((storeGet st (month_title_from_date d)).getD [])
  obtain ⟨hAdded, hMem, hLen⟩ := core_added_of_no_dateCat d date_str
    (clean_str category) (parse_amount amount) (clean_str note)
    (ensure_header ((storeGet st (month_title_from_date d)).getD [])) hne1 hnodc2
  have e1 : add_or_update_expense today st date_str category amount note =
      some ((add_or_update_core d date_str (clean_str category) (parse_amount amount)
          (clean_str note)
          (ensure_header ((storeGet st (month_title_from_date d)).getD []))).1,
        storeSet (storeSet st (month_title_from_date d)
            (ensure_header ((storeGet st (month_title_from_date d)).getD [])))
          (month_title_from_date d)
          (add_or_update_core d date_str (clean_str category) (parse_amount amount)
            (clean_str note)
            (ensure_header ((storeGet st (month_title_from_date d)).getD []))).2) := by
    unfold add_or_update_expense get_or_create_worksheet
    rw [hparse]
    simp only [hfut, Bool.false_eq_true, if_false]
  obtain ⟨o1, t1, hcore1⟩ :
      ∃ o1 t1, add_or_update_core d date_str (clean_str category) (parse_amount amount)
        (clean_str note)
        (ensure_header ((storeGet st (month_title_from_date d)).getD [])) = (o1, t1) :=
    ⟨_, _, rfl⟩
  rw [hcore1] at e1 hAdded hMem hLen
  have hGet1 : storeGet (storeSet (storeSet st (month_title_from_date d)
      (ensure_header ((storeGet st (month_title_from_date d)).getD [])))
      (month_title_from_date d) t1) (month_title_from_date d) = some t1 :=
    storeGet_storeSet_self _ _ _
  have ht1ne : t1 ≠ [] := by
    have : 0 < t1.length := by
      rw [hLen]
      omega
    exact List.length_pos.mp this
  have hMem2 : [Cell.str date_str, Cell.str (clean_str category),
      Cell.num (parse_amount amount), Cell.str (clean_str note)] ∈
      (ensure_header t1).drop 1 := by
    rw [ensure_header_drop1]
    exact hMem
  have hany : ((ensure_header t1).drop 1).any
      (dupMatch date_str (clean_str category) (parse_amount amount)
        (clean_str note)) = true :=
    List.any_eq_true.mpr ⟨_, hMem2,
      dupMatch_newRow hparse (clean_str category) (parse_amount amount)
        (clean_str note) h00 h01⟩
  have hscan2 := scanRows_dup_of_any d date_str (clean_str category)
    (parse_amount amount) (clean_str note) ((ensure_header t1).drop 1) 1 none none hany
  have hcore2 := core_eq_dup d date_str (clean_str category) (parse_amount amount)
    (clean_str note) (ensure_header t1) (ensure_header_ne_nil t1) hscan2
  refine ⟨o1,
    storeSet (storeSet st (month_title_from_date d)
        (ensure_header ((storeGet st (month_title_from_date d)).getD [])))
      (month_title_from_date d) t1,
    .err "Duplicate expense found. Entry not added.",
    storeSet (storeSet (storeSet (storeSet st (month_title_from_date d)
          (ensure_header ((storeGet st (month_title_from_date d)).getD [])))
        (month_title_from_date d) t1) (month_title_from_date d) (ensure_header t1))
      (month_title_from_date d) (ensure_header t1),
    t1, ensure_header t1,
    e1, hAdded, ?_, rfl, hGet1, ?_, ?_⟩
  · unfold add_or_update_expense get_or_create_worksheet
    rw [hparse]
    simp only [hfut, Bool.false_eq_true, if_false]
    rw [hGet1]
    simp only [Option.getD_some]
    rw [hcore2]
  · exact storeGet_storeSet_self _ _ _
  · exact ensure_header_length_of_ne_nil t1 ht1ne

theorem C5_witness :
    ∃ o1 st1 o2 st2 t1 t2,
      add_or_update_expense ⟨2025, 9, 30⟩ [] "2025-09-05" (some "Food") (.num 10)
          (some "a") = some (o1, st1) ∧
      Outcome.isAdded o1 = true ∧
      add_or_update_expense ⟨2025, 9, 30⟩ st1 "2025-09-05" (some "Food") (.num 10)
          (some "a") = some (o2, st2) ∧
      o2 = .err "Duplicate expense found. Entry not added." ∧
      storeGet st1 (month_title_from_date ⟨2025, 9, 5⟩) = some t1 ∧
      storeGet st2 (month_title_from_date ⟨2025, 9, 5⟩) = some t2 ∧
      t2.length = t1.length :=
  C5_amended_added_then_duplicate ⟨2025, 9, 30⟩ [] "2025-09-05" (some "Food")
    (.num 10) (some "a") ⟨2025, 9, 5⟩ (by decide) (by decide) (by decide) (by decide)

/-! ## Claim C4 -/

/-- C4: a candidate whose date parses and is strictly later than the
current date is rejected with the `FutureDate` message before any storage
access: the returned spreadsheet is the input spreadsheet, unchanged — no
month table is opened, created, or written. -/
theorem C4_future_date_rejected_before_storage
    (today : Date) (st : Store) (date_str : String) (category : Option String)
    (amount : Cell) (note : Option String) (d : Date)
    (hparse : parseDate? date_str = some d) (hfut : dateLt today d = true) :
    add_or_update_expense today st date_str category amount note =
      some (.err "Future dates are not allowed. Use today or past dates.", st) := by
  unfold add_or_update_expense
  rw [hparse]
  simp only [hfut, if_true]

/-! ## Claim C2 -/

/-- C2: with no exact-duplicate data row, if some data row matches the
candidate on date and case-insensitive category (the first such row is at
0-based data index `k`, sheet row `k + 2`), the upsert overwrites that
row's Amount and Note cells with the normalized candidate amount and note
and reports `Updated`; the row's Date and Category cells, every other row,
and the row count are unchanged, and no row is inserted or appended. -/
theorem C2_update_overwrites_amount_note_only
    (date_obj : Date) (date_str category : String) (amount : ℚ) (note : String)
    (ws : Table) (hwf : WfTable ws = true)
    (hnodup : ∀ r ∈ ws.drop 1, dupMatch date_str category amount note r = false)
    (k : Nat)
    (hfind : firstIdx? (dateCatMatch date_str category) (ws.drop 1) = some k) :
    ∃ oldRow newRow t2,
      add_or_update_core date_obj date_str category amount note ws =
        (.ok "Updated the existing expense!", t2) ∧
      t2 = update_cell (update_cell ws (k + 2) 3 (.num amount)) (k + 2) 4 (.str note) ∧
      ws.get? (k + 1) = some oldRow ∧ t2.get? (k + 1) = some newRow ∧
      rowCell newRow 0 = rowCell oldRow 0 ∧ rowCell newRow 1 = rowCell oldRow 1 ∧
      rowCell newRow 2 = .num amount ∧ rowCell newRow 3 = .str note ∧
      t2.length = ws.length ∧
      (∀ j, j ≠ k + 1 → t2.get? j = ws.get? j) := by
  obtain ⟨⟨oldRow, hOld, hdc⟩, hfirst⟩ := firstIdx?_spec _ _ k hfind
  have hne : ws ≠ [] := by
    intro e
    rw [e] at hOld
    simp at hOld
  have hOld1 : ws.get? (k + 1) = some oldRow := by
    have := hOld
    rw [List.get?_eq_getElem?, List.getElem?_drop] at this
    rw [List.get?_eq_getElem?]
    have h1k : 1 + k = k + 1 := by omega
    rw [h1k] at this
    exact this
  have hscan := scanRows_no_dup date_obj date_str category amount note
    (ws.drop 1) 1 none none hnodup
  rw [hfind] at hscan
  simp only [Option.map_some'] at hscan
  have h12 : 1 + k + 1 = k + 2 := by omega
  rw [h12] at hscan
  have hcore := core_eq_done date_obj date_str category amount note ws hne _ _ hscan
  refine ⟨oldRow, setCellInRow (setCellInRow oldRow 3 (.num amount)) 4 (.str note),
    update_cell (update_cell ws (k + 2) 3 (.num amount)) (k + 2) 4 (.str note),
    hcore, rfl, hOld1, ?_, ?_, ?_, ?_, ?_, ?_, ?_⟩
  · exact update_cell_get?_self _ _ _ _ _ _ (by omega)
      (update_cell_get?_self _ _ _ _ _ _ (by omega) hOld1)
  · rw [rowCell_after_update _ _ _ 0 (by omega), if_neg (by omega), if_neg (by omega)]
  · rw [rowCell_after_update _ _ _ 1 (by omega), if_neg (by omega), if_neg (by omega)]
  · rw [rowCell_after_update _ _ _ 2 (by omega), if_pos rfl]
  · rw [rowCell_after_update _ _ _ 3 (by omega), if_neg (by omega), if_pos rfl]
  · rw [update_cell_length, update_cell_length]
  · intro j hj
    rw [update_cell_get?_ne _ _ _ _ _ (by omega), update_cell_get?_ne _ _ _ _ _ (by omega)]

theorem C2_witness :
    ∃ oldRow newRow t2,
      add_or_update_core ⟨2025, 9, 5⟩ "2025-09-05" "food" 80 "x"
          [headerRow, [.str "2025-09-05", .str "Food", .num 100, .str "lunch"]] =
        (.ok "Updated the existing expense!", t2) ∧
      t2 = update_cell (update_cell
          [headerRow, [.str "2025-09-05", .str "Food", .num 100, .str "lunch"]]
          2 3 (.num 80)) 2 4 (.str "x") ∧
      [headerRow, [Cell.str "2025-09-05", Cell.str "Food", Cell.num 100,
          Cell.str "lunch"]].get? 1 = some oldRow ∧
      t2.get? 1 = some newRow ∧
      rowCell newRow 0 = rowCell oldRow 0 ∧ rowCell newRow 1 = rowCell oldRow 1 ∧
      rowCell newRow 2 = .num 80 ∧ rowCell newRow 3 = .str "x" ∧
      t2.length = 2 ∧
      (∀ j, j ≠ 1 → t2.get? j =
        [headerRow, [Cell.str "2025-09-05", Cell.str "Food", Cell.num 100,
          Cell.str "lunch"]].get? j) :=
  C2_update_overwrites_amount_note_only ⟨2025, 9, 5⟩ "2025-09-05" "food" 80 "x"
    [headerRow, [.str "2025-09-05", .str "Food", .num 100, .str "lunch"]]
    (by decide) (by decide) 0 (by decide)

theorem C4_witness :
    add_or_update_expense ⟨2025, 9, 30⟩
        [("September 2025", [headerRow])] "2025-10-01" (some "Food") (.num 5) (some "") =
      some (.err "Future dates are not allowed. Use today or past dates.",
        [("September 2025", [headerRow])]) :=
  C4_future_date_rejected_before_storage ⟨2025, 9, 30⟩ [("September 2025", [headerRow])]
    "2025-10-01" (some "Food") (.num 5) (some "") ⟨2025, 10, 1⟩ (by decide) (by decide)

/-! ## Lemmas: the summary dictionaries -/

theorem lookupD_dictAdd (l : List (String × ℚ)) (k key : String) (v : ℚ) :
    lookupD (dictAdd l k v) key =
      if k = key then some ((lookupD l key).getD 0 + v) else lookupD l key := by
  induction l with
  | nil =>
    by_cases h : k = key
    · simp [dictAdd, lookupD, h]
    · simp [dictAdd, lookupD, h]
  | cons p rest ih =>
    cases p with
    | mk k0 x0 =>
      by_cases h0 : k0 = k
      · subst h0
        by_cases h : k0 = key
        · subst h
          simp [dictAdd, lookupD]
        · simp [dictAdd, lookupD, h]
      · by_cases h : k0 = key
        · subst h
          have hk : k ≠ k0 := fun e => h0 e.symm
          simp [dictAdd, lookupD, h0, hk]
        · simp [dictAdd, lookupD, h0, h, ih]

theorem foldl_dictAdd_lookup (keyOf : Rec → Option String) :
    ∀ (records : List Rec) (acc : List (String × ℚ)) (key : String),
      lookupD (records.foldl (fun acc r =>
        match keyOf r with
        | some k => dictAdd acc k (parse_amount r.amount)
        | none => acc) acc) key =
      (if records.any (fun r => keyOf r == some key) then
        some ((lookupD acc key).getD 0 +
          ((records.filter (fun r => keyOf r == some key)).map
            (fun r => parse_amount r.amount)).sum)
      else lookupD acc key) := by
  intro records
  induction records with
  | nil => intro acc key; simp
  | cons r rest ih =>
    intro acc key
    rw [List.foldl_cons, List.any_cons, List.filter_cons]
    cases hk : keyOf r with
    | none =>
      have hb : ((none : Option String) == some key) = false := rfl
      simp only [hk, hb, Bool.false_or, Bool.false_eq_true, if_false]
      exact ih acc key
    | some k0 =>
      by_cases he : k0 = key
      · subst he
        have hb : (some k0 == some k0) = true := by simp
        simp only [hk, hb, Bool.true_or, if_true, List.map_cons, List.sum_cons]
        rw [ih]
        rw [lookupD_dictAdd, if_pos rfl]
        by_cases hr : rest.any (fun r => keyOf r == some k0) = true
        · rw [if_pos hr]
          congr 1
          rw [Option.getD_some]
          rw [add_assoc]
        · rw [Bool.not_eq_true] at hr
          have hfil : rest.filter (fun r => keyOf r == some k0) = [] := by
            rw [List.filter_eq_nil_iff]
            intro a ha
            have h4 := (List.any_eq_false.mp hr) a ha
            simpa using h4
          simp only [hr, Bool.false_eq_true, if_false, hfil, List.map_nil,
            List.sum_nil, add_zero]
      · have hb : (some k0 == some key) = false := by
          simp [he]
        simp only [hk, hb, Bool.false_or, Bool.false_eq_true, if_false]
        rw [ih]
        rw [lookupD_dictAdd, if_neg he]

/-! ## Claim C6 -/

/-- C6: the by-category summary maps each trimmed category string to the
sum of the parsed amounts of the records bearing that category (keys not
present in any record are absent); a non-numeric Amount parses to 0
instead of raising; and on the specification's example rows the summary
is Food equal 125 and Travel equal 50, in first-seen order. -/
theorem C6_by_category_summary
    (records : List Rec) (hwf : ∀ r ∈ records, WfRec r = true) :
    (∀ key, lookupD (get_summary records) key =
      (if records.any (fun r => cleanCell r.category == key) then
        some (((records.filter (fun r => cleanCell r.category == key)).map
          (fun r => parse_amount r.amount)).sum)
      else none)) ∧
    (∀ s, parseFloat? s = none → parse_amount (.str s) = 0) ∧
    get_summary exampleRecords = [("Food", 125), ("Travel", 50)] := by
  refine ⟨?_, ?_, ?_⟩
  · intro key
    have e : get_summary records = records.foldl (fun acc r =>
        match some (cleanCell r.category) with
        | some k => dictAdd acc k (parse_amount r.amount)
        | none => acc) [] := rfl
    rw [e, foldl_dictAdd_lookup (fun r0 : Rec => some (cleanCell r0.category)) records
      [] key]
    have hp : (fun r : Rec => some (cleanCell r.category) == some key) =
        (fun r : Rec => cleanCell r.category == key) := by
      funext r
      rfl
    rw [hp]
    by_cases hany : records.any (fun r => cleanCell r.category == key) = true
    · rw [if_pos hany, if_pos hany]
      have h0 : lookupD [] key = none := rfl
      rw [h0, Option.getD_none, zero_add]
    · rw [Bool.not_eq_true] at hany
      simp only [hany, Bool.false_eq_true, if_false]
      rfl
  · intro s h
    show (parseFloat? s).getD 0 = 0
    rw [h]
    rfl
  · have h1 : (100 : ℚ) + 25 = 125 := by norm_num
    have h2 : get_summary exampleRecords = [("Food", (100 : ℚ) + 25), ("Travel", 50)] :=
      rfl
    rw [h2, h1]

theorem C6_witness :
    lookupD (get_summary exampleRecords) "Food" = some 125 := by
  have h := (C6_by_category_summary exampleRecords (by decide)).1 "Food"
  rw [h, if_pos (by decide)]
  have e : ((exampleRecords.filter (fun r => cleanCell r.category == "Food")).map
      (fun r => parse_amount r.amount)).sum = (100 : ℚ) + (25 + 0) := rfl
  rw [e]
  norm_num

/-! ## Claim C7 -/

theorem mem_keys_dictAdd (l : List (String × ℚ)) (k : String) (v : ℚ) (a : String) :
    a ∈ (dictAdd l k v).map Prod.fst ↔ a ∈ l.map Prod.fst ∨ a = k := by
  induction l with
  | nil => simp [dictAdd]
  | cons p rest ih =>
    cases p with
    | mk k0 x0 =>
      by_cases h0 : k0 = k
      · subst h0
        simp [dictAdd]
        tauto
      · simp [dictAdd, h0, ih]
        tauto

theorem nodup_keys_dictAdd (l : List (String × ℚ)) (k : String) (v : ℚ)
    (h : (l.map Prod.fst).Nodup) : ((dictAdd l k v).map Prod.fst).Nodup := by
  induction l with
  | nil => simp [dictAdd]
  | cons p rest ih =>
    cases p with
    | mk k0 x0 =>
      rw [List.map_cons, List.nodup_cons] at h
      by_cases h0 : k0 = k
      · subst h0
        have e : dictAdd ((k0, x0) :: rest) k0 v = (k0, x0 + v) :: rest := by
          simp [dictAdd]
        rw [e, List.map_cons, List.nodup_cons]
        exact h
      · have e : dictAdd ((k0, x0) :: rest) k v = (k0, x0) :: dictAdd rest k v := by
          simp [dictAdd, h0]
        rw [e, List.map_cons, List.nodup_cons]
        refine ⟨?_, ih h.2⟩
        rw [mem_keys_dictAdd]
        push_neg
        exact ⟨h.1, h0⟩

theorem nodup_keys_fold (keyOf : Rec → Option String) :
    ∀ (records : List Rec) (acc : List (String × ℚ)),
      (acc.map Prod.fst).Nodup →
      (((records.foldl (fun acc r =>
        match keyOf r with
        | some k => dictAdd acc k (parse_amount r.amount)
        | none => acc) acc)).map Prod.fst).Nodup := by
  intro records
  induction records with
  | nil => intro acc h; exact h
  | cons r rest ih =>
    intro acc h
    rw [List.foldl_cons]
    cases hk : keyOf r with
    | none => simp only [hk]; exact ih acc h
    | some k0 => simp only [hk]; exact ih _ (nodup_keys_dictAdd acc k0 _ h)

theorem lookupD_eq_some_imp_mem (l : List (String × ℚ)) (k : String) (v : ℚ)
    (h : lookupD l k = some v) : (k, v) ∈ l := by
  induction l with
  | nil => exact absurd h (by simp [lookupD])
  | cons p rest ih =>
    cases p with
    | mk k0 x0 =>
      by_cases h0 : k0 = k
      · subst h0
        rw [lookupD, if_pos rfl] at h
        cases h
        exact List.mem_cons_self _ _
      · rw [lookupD, if_neg h0] at h
        exact List.mem_cons_of_mem _ (ih h)

theorem mem_imp_lookupD (l : List (String × ℚ)) (k : String) (v : ℚ)
    (hnd : (l.map Prod.fst).Nodup) (h : (k, v) ∈ l) : lookupD l k = some v := by
  induction l with
  | nil => simp at h
  | cons p rest ih =>
    cases p with
    | mk k0 x0 =>
      rw [List.map_cons, List.nodup_cons] at hnd
      rcases List.mem_cons.mp h with he | hm
      · cases he
        rw [lookupD, if_pos rfl]
      · by_cases h0 : k0 = k
        · subst h0
          have : k0 ∈ rest.map Prod.fst :=
            List.mem_map.mpr ⟨(k0, v), hm, rfl⟩
          exact absurd this hnd.1
        · rw [lookupD, if_neg h0]
          exact ih hnd.2 hm

theorem lookupD_eq_none_iff (l : List (String × ℚ)) (k : String) :
    lookupD l k = none ↔ k ∉ l.map Prod.fst := by
  induction l with
  | nil => simp [lookupD]
  | cons p rest ih =>
    cases p with
    | mk k0 x0 =>
      by_cases h0 : k0 = k
      · subst h0
        simp [lookupD]
      · rw [lookupD, if_neg h0, List.map_cons]
        rw [ih]
        constructor
        · intro hn hmem
          rcases List.mem_cons.mp hmem with he | hm
          · exact h0 he.symm
          · exact hn hm
        · intro hn hm
          exact hn (List.mem_cons_of_mem _ hm)

theorem lookupD_perm (l l2 : List (String × ℚ)) (hperm : List.Perm l l2)
    (hnd : (l.map Prod.fst).Nodup) (k : String) : lookupD l k = lookupD l2 k := by
  have hnd2 : (l2.map Prod.fst).Nodup := ((hperm.map Prod.fst).nodup_iff).mp hnd
  cases hv : lookupD l k with
  | some v =>
    have hm : (k, v) ∈ l := lookupD_eq_some_imp_mem _ _ _ hv
    exact (mem_imp_lookupD l2 k v hnd2 (hperm.mem_iff.mp hm)).symm
  | none =>
    have hk : k ∉ l.map Prod.fst := (lookupD_eq_none_iff _ _).mp hv
    have hk2 : k ∉ l2.map Prod.fst := by
      intro hc
      exact hk (((hperm.map Prod.fst).mem_iff).mpr hc)
    exact ((lookupD_eq_none_iff _ _).mpr hk2).symm

/-- C7: the by-day summary keys each record by the zero-padded two-digit
day of its parsed Date, sums parsed amounts per day, silently drops
records whose date does not parse, and emits its entries ordered by
ascending numeric day value; the specification's example rows give 150
for day 01 and 25 for day 02. -/
theorem C7_by_day_summary
    (records : List Rec) (hwf : ∀ r ∈ records, WfRec r = true) :
    (∀ key, lookupD (get_daily_summary records) key =
      (if records.any (fun r => dayKey? r == some key) then
        some (((records.filter (fun r => dayKey? r == some key)).map
          (fun r => parse_amount r.amount)).sum)
      else none)) ∧
    List.Sorted byDayLe (get_daily_summary records) ∧
    get_daily_summary exampleRecords = [("01", 150), ("02", 25)] := by
  refine ⟨?_, ?_, ?_⟩
  · intro key
    have hperm : List.Perm (get_daily_summary records)
        (records.foldl (fun daily r =>
          match dayKey? r with
          | some k => dictAdd daily k (parse_amount r.amount)
          | none => daily) []) := List.perm_insertionSort _ _
    have hnd : (((records.foldl (fun daily r =>
        match dayKey? r with
        | some k => dictAdd daily k (parse_amount r.amount)
        | none => daily) [])).map Prod.fst).Nodup :=
      nodup_keys_fold dayKey? records [] (by simp)
    have hnds : ((get_daily_summary records).map Prod.fst).Nodup :=
      ((hperm.map Prod.fst).nodup_iff).mpr hnd
    rw [lookupD_perm _ _ hperm hnds key]
    rw [foldl_dictAdd_lookup dayKey? records [] key]
    by_cases hany : records.any (fun r => dayKey? r == some key) = true
    · rw [if_pos hany, if_pos hany]
      have h0 : lookupD [] key = none := rfl
      rw [h0, Option.getD_none, zero_add]
    · rw [Bool.not_eq_true] at hany
      simp only [hany, Bool.false_eq_true, if_false]
      rfl
  · exact List.sorted_insertionSort byDayLe _
  · have h1 : (100 : ℚ) + 50 = 150 := by norm_num
    have h2 : get_daily_summary exampleRecords =
        [("01", (100 : ℚ) + 50), ("02", 25)] := rfl
    rw [h2, h1]

theorem C7_witness :
    lookupD (get_daily_summary exampleRecords) "01" = some 150 ∧
    List.Sorted byDayLe (get_daily_summary exampleRecords) := by
  have h := C7_by_day_summary exampleRecords (by decide)
  constructor
  · rw [h.1 "01", if_pos (by decide)]
    have e : ((exampleRecords.filter (fun r => dayKey? r == some "01")).map
        (fun r => parse_amount r.amount)).sum = (100 : ℚ) + (50 + 0) := rfl
    rw [e]
    norm_num
  · exact h.2.1

end ExpenseTracker

example : ExpenseTracker.pyStrip "  a b \n" = "a b" := by decide
example : ExpenseTracker.parseFloat? " 10.25 " = some (mkRat 41 4) := by decide
example : ExpenseTracker.parseFloat? "abc" = none := by decide
example : ExpenseTracker.parseFloat? "-2e2" = some (mkRat (-200) 1) := by decide
example : ExpenseTracker.parseFloat? "100" = some (100 : ℚ) := by decide
example : ExpenseTracker.parseDate? "2025-09-05" = some ⟨2025, 9, 5⟩ := by decide
example : ExpenseTracker.parseDate? "2025-13-05" = none := by decide
example : ExpenseTracker.parseDate? "2025-02-30" = none := by decide
example : ExpenseTracker.parseDate? "" = none := by decide
example : ExpenseTracker.dateLt ⟨2025, 9, 5⟩ ⟨2025, 9, 10⟩ = true := by decide
example : ExpenseTracker.month_title_from_date ⟨2025, 9, 5⟩ = "September 2025" := by decide
